import Mathlib

/-!
Shallow embedding of the booking/availability core of the nettu-scheduler
repository, with theorems checking the natural-language specification
against the code.  Definitions are translated from the Rust sources;
components referenced by the sources but not contained in them are
modelled from the specification and marked as such in their doc comments.
-/

/-! ## CalendarView (src/server/crates/core/src/calendar_view.rs) -/

structure CalendarView where
  start_ts : Int
  end_ts : Int
deriving DecidableEq, Repr

structure InvalidTimespanError where
  start_ts : Int
  end_ts : Int
deriving DecidableEq, Repr

def CalendarView.create (start_ts end_ts : Int) :
    Except InvalidTimespanError CalendarView :=
  let max_timespan : Int := 1000 * 60 * 60 * 24 * 40
  let min_timespan : Int := 1000 * 60 * 60
  let delta := end_ts - start_ts
  if delta > max_timespan ∨ delta < min_timespan then
    Except.error ⟨start_ts, end_ts⟩
  else
    Except.ok ⟨start_ts, end_ts⟩

/-- C1: CalendarView.create succeeds iff the timespan end_ts - start_ts lies in
the inclusive range [1 hour, 40 days] in milliseconds, and fails with
InvalidTimespanError, producing no window, for every pair outside that range. -/
theorem calendar_view_create_iff (start_ts end_ts : Int) :
    ((∃ v : CalendarView, CalendarView.create start_ts end_ts = Except.ok v) ↔
      (1000 * 60 * 60 ≤ end_ts - start_ts ∧
        end_ts - start_ts ≤ 1000 * 60 * 60 * 24 * 40)) ∧
    (¬ (1000 * 60 * 60 ≤ end_ts - start_ts ∧
        end_ts - start_ts ≤ 1000 * 60 * 60 * 24 * 40) →
      CalendarView.create start_ts end_ts = Except.error ⟨start_ts, end_ts⟩) := by
  unfold CalendarView.create
  constructor
  · constructor
    · intro ⟨v, hv⟩
      by_contra hrange
      rw [if_pos] at hv
      · exact Except.noConfusion hv
      · omega
    · intro hrange
      rw [if_neg (by omega)]
      exact ⟨_, rfl⟩
  · intro hrange
    rw [if_pos (by omega)]

/-- Witness for C1 at concrete inputs: a one-hour window is accepted and a
ten-millisecond window is rejected. -/
theorem calendar_view_create_iff_witness :
    (∃ v : CalendarView, CalendarView.create 0 3600000 = Except.ok v) ∧
    CalendarView.create 0 10 = Except.error ⟨0, 10⟩ :=
  ⟨(calendar_view_create_iff 0 3600000).1.mpr (by decide),
   (calendar_view_create_iff 0 10).2 (by decide)⟩

/-! ## Reminders: domain type and the expiry sweep
(src/server/crates/infra/src/repos/event/reminder/mongo.rs,
src/scheduler/crates/infra/src/repos/event/reminder/postgres.rs) -/

structure Reminder where
  id : String
  remind_at : Int
  event_id : String
  account_id : String
  priority : Int
deriving DecidableEq, Repr

namespace ReminderRepo

/-- MongoReminderRepo::delete_all_before (mongo.rs:40-65): find all
documents with remind_at <= before_inc, delete them, and return the found
documents intact.  State is the list of stored reminders; the result is
(returned reminders, remaining store). -/
def mongo_delete_all_before (before_inc : Int) (store : List Reminder) :
    List Reminder × List Reminder :=
  (store.filter (fun r => decide (r.remind_at ≤ before_inc)),
   store.filter (fun r => ! decide (r.remind_at ≤ before_inc)))

/-- The Mongo backend satisfies the sweep contract: it returns exactly the
records with trigger time at most ts, keeps every later record unchanged,
and an immediately repeated call returns the empty set. -/
theorem mongo_delete_all_before_spec (ts : Int) (store : List Reminder) :
    (∀ r : Reminder,
      r ∈ (mongo_delete_all_before ts store).1 ↔ (r ∈ store ∧ r.remind_at ≤ ts)) ∧
    (∀ r : Reminder,
      r ∈ (mongo_delete_all_before ts store).2 ↔ (r ∈ store ∧ ts < r.remind_at)) ∧
    ((mongo_delete_all_before ts store).2.Sublist store) ∧
    (mongo_delete_all_before ts (mongo_delete_all_before ts store).2).1 = [] := by
  refine ⟨?_, ?_, ?_, ?_⟩
  · intro r
    simp [mongo_delete_all_before, List.mem_filter]
  · intro r
    simp only [mongo_delete_all_before, List.mem_filter, Bool.not_eq_eq_eq_not,
      Bool.not_true, decide_eq_false_iff_not, not_le]
  · exact List.filter_sublist store
  · simp only [mongo_delete_all_before, List.filter_filter]
    rw [List.filter_eq_nil_iff]
    intro r _
    simp only [Bool.and_eq_true, decide_eq_true_eq, Bool.not_eq_eq_eq_not,
      Bool.not_true, decide_eq_false_iff_not, not_le, not_and]
    intro h1 h2
    omega

/-- A row of the Postgres reminders table as fetched by the repository
(postgres.rs:18-25); the uid columns are modelled as strings. -/
structure ReminderRaw where
  reminder_uid : String
  event_uid : String
  account_uid : String
  remind_at : Int
  priority : Int
deriving DecidableEq, Repr

/-- The Into Reminder conversion of postgres.rs:27-37: remind_at and
priority are carried over, but id, event_id and account_id are set to
Default::default() (modelled as the empty string) instead of the row's
uids. -/
def ReminderRaw.into (r : ReminderRaw) : Reminder :=
  { id := ""
    remind_at := r.remind_at
    event_id := ""
    account_id := ""
    priority := r.priority }

/-- PostgresReminderRepo::delete_all_before (postgres.rs:64-80): DELETE
FROM reminders WHERE remind_at <= $1 RETURNING *, the returned rows then
converted through ReminderRaw.into.  State is the list of stored rows; the
result is (returned domain reminders, remaining rows). -/
def postgres_delete_all_before (before : Int) (store : List ReminderRaw) :
    List Reminder × List ReminderRaw :=
  ((store.filter (fun r => decide (r.remind_at ≤ before))).map ReminderRaw.into,
   store.filter (fun r => ! decide (r.remind_at ≤ before)))

/-- C7: failing input for the Postgres backend.  One stored row with
remind_at 5 and event_uid e1, swept with ts = 10: the row is deleted and a
repeated call would find nothing, but the reminder handed back carries the
default id, event_id and account_id rather than the reclaimed row's
identities, so delete_all_before does not return the set of records it
reclaimed — against the sweep contract that the trait, the Mongo backend
(mongo_delete_all_before_spec) and the caller get_upcoming_reminders
(which reads event_id from the returned reminders) all expect. -/
theorem postgres_delete_all_before_drops_identity :
    (postgres_delete_all_before 10 [⟨"r1", "e1", "a1", 5, 1⟩]).1 =
      [{ id := "", remind_at := 5, event_id := "", account_id := "", priority := 1 }] ∧
    (postgres_delete_all_before 10 [⟨"r1", "e1", "a1", 5, 1⟩]).2 = [] ∧
    (postgres_delete_all_before 10 [⟨"r1", "e1", "a1", 5, 1⟩]).1.map
      (fun r => r.event_id) ≠ ["e1"] :=
  ⟨rfl, rfl, by decide⟩

/-! ## dedup_reminders
(src/server/crates/api/src/event/usecases/get_upcoming_reminders.rs) -/

/-- Core of dedup_reminders: walking the (already sorted) list front to
back, each kept element removes every later element that shares its
event_id — exactly the effect of the index/j loops in the source.  Fuel
makes the recursion structural; the list length is always enough fuel. -/
def dedupKeepFirst : Nat → List Reminder → List Reminder
  | 0, _ => []
  | _, [] => []
  | fuel + 1, r :: rest =>
    r :: dedupKeepFirst fuel (rest.filter (fun x => ! decide (x.event_id = r.event_id)))

/-- The source first sorts the reminders by priority (a stable sort; which
of several duplicates of equal priority survives does not matter to any
property proved below) and then removes later duplicates by event_id. -/
def dedup_reminders (reminders : List Reminder) : List Reminder :=
  let sorted := reminders.insertionSort (fun a b => a.priority ≤ b.priority)
  dedupKeepFirst sorted.length sorted

theorem dedupKeepFirst_sublist (fuel : Nat) (l : List Reminder) :
    (dedupKeepFirst fuel l).Sublist l := by
  induction fuel generalizing l with
  | zero => cases l <;> exact List.nil_sublist _
  | succ n ih =>
    cases l with
    | nil => exact List.Sublist.refl []
    | cons r rest =>
      exact List.Sublist.cons₂ r ((ih _).trans (List.filter_sublist rest))

theorem dedupKeepFirst_pairwise_ne (fuel : Nat) (l : List Reminder) :
    (dedupKeepFirst fuel l).Pairwise (fun a b => a.event_id ≠ b.event_id) := by
  induction fuel generalizing l with
  | zero => cases l <;> exact List.Pairwise.nil
  | succ n ih =>
    cases l with
    | nil => exact List.Pairwise.nil
    | cons r rest =>
      refine List.Pairwise.cons ?_ (ih _)
      intro x hx
      have hmem := (dedupKeepFirst_sublist n _).subset hx
      have := (List.mem_filter.mp hmem).2
      simp only [Bool.not_eq_eq_eq_not, Bool.not_true, decide_eq_false_iff_not] at this
      exact fun h => this h.symm

theorem dedupKeepFirst_covers (fuel : Nat) (l : List Reminder)
    (hfuel : l.length ≤ fuel) (r : Reminder) (hr : r ∈ l) :
    ∃ r2 ∈ dedupKeepFirst fuel l, r2.event_id = r.event_id := by
  induction fuel generalizing l with
  | zero =>
    rw [Nat.le_zero, List.length_eq_zero] at hfuel
    subst hfuel
    exact absurd hr (List.not_mem_nil r)
  | succ n ih =>
    cases l with
    | nil => exact absurd hr (List.not_mem_nil r)
    | cons r0 rest =>
      by_cases hid : r.event_id = r0.event_id
      · exact ⟨r0, List.mem_cons_self _ _, hid.symm⟩
      · have hrrest : r ∈ rest := by
          cases List.mem_cons.mp hr with
          | inl h => exact absurd (congrArg Reminder.event_id h) hid
          | inr h => exact h
        have hrfilter : r ∈ rest.filter (fun x => ! decide (x.event_id = r0.event_id)) := by
          rw [List.mem_filter]
          refine ⟨hrrest, ?_⟩
          simp only [Bool.not_eq_eq_eq_not, Bool.not_true, decide_eq_false_iff_not]
          exact hid
        have hlen : (rest.filter (fun x => ! decide (x.event_id = r0.event_id))).length ≤ n := by
          have := List.length_filter_le (fun x => ! decide (x.event_id = r0.event_id)) rest
          simp only [List.length_cons] at hfuel
          omega
        obtain ⟨r2, hr2, hr2id⟩ := ih _ hlen hrfilter
        exact ⟨r2, List.mem_cons_of_mem r0 hr2, hr2id⟩

theorem dedupKeepFirst_min_priority (fuel : Nat) (l : List Reminder)
    (hsorted : l.Pairwise (fun a b => a.priority ≤ b.priority))
    (r : Reminder) (hr : r ∈ dedupKeepFirst fuel l)
    (x : Reminder) (hx : x ∈ l) (hid : x.event_id = r.event_id) :
    r.priority ≤ x.priority := by
  induction fuel generalizing l with
  | zero => cases l <;> exact absurd hr (List.not_mem_nil r)
  | succ n ih =>
    cases l with
    | nil => exact absurd hr (List.not_mem_nil r)
    | cons r0 rest =>
      rw [List.pairwise_cons] at hsorted
      cases List.mem_cons.mp hr with
      | inl hr0 =>
        subst hr0
        cases List.mem_cons.mp hx with
        | inl h => exact le_of_eq (congrArg Reminder.priority h.symm)
        | inr h => exact hsorted.1 x h
      | inr hrtail =>
        have hrid : r.event_id ≠ r0.event_id := by
          have hmem := (dedupKeepFirst_sublist n _).subset hrtail
          have := (List.mem_filter.mp hmem).2
          simp only [Bool.not_eq_eq_eq_not, Bool.not_true, decide_eq_false_iff_not] at this
          exact this
        have hxrest : x ∈ rest := by
          cases List.mem_cons.mp hx with
          | inl h =>
            exact absurd (h ▸ hid : r0.event_id = r.event_id) (fun hh => hrid hh.symm)
          | inr h => exact h
        have hxfilter : x ∈ rest.filter (fun y => ! decide (y.event_id = r0.event_id)) := by
          rw [List.mem_filter]
          refine ⟨hxrest, ?_⟩
          simp only [Bool.not_eq_eq_eq_not, Bool.not_true, decide_eq_false_iff_not]
          exact fun hh => hrid (hid ▸ hh)
        have hsf : (rest.filter (fun y => ! decide (y.event_id = r0.event_id))).Pairwise
            (fun a b => a.priority ≤ b.priority) :=
          List.Pairwise.sublist (List.filter_sublist rest) hsorted.2
        exact ih _ hsf hrtail hxfilter

theorem pairwise_ne_filter_length_le_one (l : List Reminder) (e : String)
    (hpw : l.Pairwise (fun a b => a.event_id ≠ b.event_id)) :
    (l.filter (fun r => decide (r.event_id = e))).length ≤ 1 := by
  induction l with
  | nil => simp
  | cons r rest ih =>
    rw [List.pairwise_cons] at hpw
    by_cases hre : r.event_id = e
    · have : rest.filter (fun r2 => decide (r2.event_id = e)) = [] := by
        rw [List.filter_eq_nil_iff]
        intro x hx
        simp only [decide_eq_true_eq]
        exact fun hxe => hpw.1 x hx (hre.trans hxe.symm)
      simp [List.filter_cons, hre, this]
    · simp only [List.filter_cons, hre, decide_False]
      exact ih hpw.2

/-- C9: after dedup_reminders runs, (a) the event_ids of the remaining
reminders are pairwise distinct; (b) for each event_id occurring in the
input exactly one reminder with that event_id remains, and every remaining
reminder's priority is minimal among all input reminders sharing its
event_id (the minimum is attained since the remaining reminder is itself an
input element); (c) every remaining reminder is an element of the input
list and the remaining list is sorted by priority. -/
theorem dedup_reminders_spec (rs : List Reminder) :
    (dedup_reminders rs).Pairwise (fun a b => a.event_id ≠ b.event_id) ∧
    (∀ e : String, e ∈ rs.map (fun r => r.event_id) →
      ((dedup_reminders rs).filter (fun r => decide (r.event_id = e))).length = 1) ∧
    (∀ r ∈ dedup_reminders rs, ∀ x ∈ rs, x.event_id = r.event_id →
      r.priority ≤ x.priority) ∧
    (∀ r ∈ dedup_reminders rs, r ∈ rs) ∧
    (dedup_reminders rs).Pairwise (fun a b => a.priority ≤ b.priority) := by
  haveI hTot : IsTotal Reminder (fun a b => a.priority ≤ b.priority) :=
    ⟨fun a b => le_total _ _⟩
  haveI hTrans : IsTrans Reminder (fun a b => a.priority ≤ b.priority) :=
    ⟨fun _ _ _ hab hbc => le_trans hab hbc⟩
  have hperm : (rs.insertionSort (fun a b => a.priority ≤ b.priority)).Perm rs :=
    List.perm_insertionSort _ rs
  have hsorted : (rs.insertionSort (fun a b => a.priority ≤ b.priority)).Pairwise
      (fun a b => a.priority ≤ b.priority) :=
    List.sorted_insertionSort _ rs
  refine ⟨dedupKeepFirst_pairwise_ne _ _, ?_, ?_, ?_, ?_⟩
  · intro e he
    rw [List.mem_map] at he
    obtain ⟨r, hr, hre⟩ := he
    have hrs : r ∈ rs.insertionSort (fun a b => a.priority ≤ b.priority) :=
      hperm.mem_iff.mpr hr
    obtain ⟨r2, hr2, hr2e⟩ := dedupKeepFirst_covers _ _ (le_refl _) r hrs
    have hone : ((dedup_reminders rs).filter
        (fun r3 => decide (r3.event_id = e))).length ≤ 1 :=
      pairwise_ne_filter_length_le_one _ e (dedupKeepFirst_pairwise_ne _ _)
    have hmem : r2 ∈ (dedup_reminders rs).filter (fun r3 => decide (r3.event_id = e)) := by
      rw [List.mem_filter]
      exact ⟨hr2, by simp [hr2e, hre]⟩
    have hpos : 0 < ((dedup_reminders rs).filter
        (fun r3 => decide (r3.event_id = e))).length :=
      List.length_pos.mpr (List.ne_nil_of_mem hmem)
    omega
  · intro r hr x hx hxe
    exact dedupKeepFirst_min_priority _ _ hsorted r hr x (hperm.mem_iff.mpr hx) hxe
  · intro r hr
    exact hperm.mem_iff.mp ((dedupKeepFirst_sublist _ _).subset hr)
  · exact List.Pairwise.sublist (dedupKeepFirst_sublist _ _) hsorted

/-- Witness for C9 at a concrete input: two reminders share event_id e1;
after dedup exactly one reminder with event_id e1 remains. -/
theorem dedup_reminders_spec_witness :
    ((dedup_reminders [⟨"ida", 0, "e1", "a", 5⟩, ⟨"idb", 0, "e1", "a", 2⟩]).filter
        (fun r => decide (r.event_id = "e1"))).length = 1 :=
  (dedup_reminders_spec [⟨"ida", 0, "e1", "a", 5⟩, ⟨"idb", 0, "e1", "a", 2⟩]).2.1
    "e1" (by decide)

/-! ## ReminderMongo document mapping
(src/server/crates/infra/src/repos/event/reminder/mongo.rs)
ObjectId is modelled as its 12 bytes; its string form is the 24-character
lowercase hex encoding, and with_string is the hex parse used by
ObjectId::with_string (accepting both upper- and lowercase digits). -/

def hexDigitChar (n : Nat) : Char :=
  if n < 10 then Char.ofNat (48 + n) else Char.ofNat (87 + n)

def hexCharVal (c : Char) : Option Nat :=
  if 48 ≤ c.toNat ∧ c.toNat ≤ 57 then some (c.toNat - 48)
  else if 97 ≤ c.toNat ∧ c.toNat ≤ 102 then some (c.toNat - 87)
  else if 65 ≤ c.toNat ∧ c.toNat ≤ 70 then some (c.toNat - 55)
  else none

def byteToHex (b : Nat) : List Char :=
  [hexDigitChar (b / 16), hexDigitChar (b % 16)]

structure ObjectId where
  bytes : List Nat
deriving DecidableEq, Repr

def ObjectId.toHexString (o : ObjectId) : String :=
  String.mk (o.bytes.flatMap byteToHex)

def hexDecode : List Char → Option (List Nat)
  | [] => some []
  | [_] => none
  | c1 :: c2 :: rest =>
    match hexCharVal c1, hexCharVal c2, hexDecode rest with
    | some hi, some lo, some tail => some ((16 * hi + lo) :: tail)
    | _, _, _ => none

def ObjectId.with_string (s : String) : Option ObjectId :=
  match hexDecode s.data with
  | some bs => if bs.length = 12 then some ⟨bs⟩ else none
  | none => none

structure ReminderMongo where
  _id : ObjectId
  remind_at : Int
  event_id : String
  account_id : String
  priority : Int
deriving DecidableEq, Repr

def ReminderMongo.to_domain (m : ReminderMongo) : Reminder :=
  { id := m._id.toHexString
    remind_at := m.remind_at
    event_id := m.event_id
    account_id := m.account_id
    priority := m.priority }

/-- from_domain unwraps ObjectId::with_string on the domain id; the unwrap
is modelled as the Option layer: none corresponds to the panic. -/
def ReminderMongo.from_domain (event : Reminder) : Option ReminderMongo :=
  (ObjectId.with_string event.id).map (fun oid =>
    { _id := oid
      event_id := event.event_id
      account_id := event.account_id
      remind_at := event.remind_at
      priority := event.priority })

theorem hex_digit_roundtrip : ∀ n : Nat, n < 16 →
    hexCharVal (hexDigitChar n) = some n := by decide

theorem hexDecode_byteToHex_append (b : Nat) (hb : b < 256) (rest : List Char) :
    hexDecode (byteToHex b ++ rest) = (hexDecode rest).map (fun t => b :: t) := by
  have h1 : hexCharVal (hexDigitChar (b / 16)) = some (b / 16) :=
    hex_digit_roundtrip _ (by omega)
  have h2 : hexCharVal (hexDigitChar (b % 16)) = some (b % 16) :=
    hex_digit_roundtrip _ (by omega)
  show hexDecode (hexDigitChar (b / 16) :: hexDigitChar (b % 16) :: rest) = _
  rw [hexDecode, h1, h2]
  cases hrest : hexDecode rest with
  | none => rfl
  | some tail =>
    have hbb : 16 * (b / 16) + b % 16 = b := by omega
    show some ((16 * (b / 16) + b % 16) :: tail) = Option.map (fun t => b :: t) (some tail)
    rw [hbb]
    rfl

theorem hexDecode_flatMap (bs : List Nat) (hb : ∀ b ∈ bs, b < 256) :
    hexDecode (bs.flatMap byteToHex) = some bs := by
  induction bs with
  | nil => rfl
  | cons b rest ih =>
    rw [List.flatMap_cons,
      hexDecode_byteToHex_append b (hb b (List.mem_cons_self b rest)) _,
      ih (fun x hx => hb x (List.mem_cons_of_mem b hx))]
    rfl

theorem with_string_toHexString (o : ObjectId) (hlen : o.bytes.length = 12)
    (hb : ∀ b ∈ o.bytes, b < 256) :
    ObjectId.with_string o.toHexString = some o := by
  show ObjectId.with_string (String.mk (o.bytes.flatMap byteToHex)) = some o
  rw [ObjectId.with_string]
  have hdata : (String.mk (o.bytes.flatMap byteToHex)).data = o.bytes.flatMap byteToHex := rfl
  rw [hdata, hexDecode_flatMap o.bytes hb]
  simp [hlen]

/-- C10: for every Reminder whose id field is the string form of a valid
ObjectId, converting to the Mongo document representation and back is the
identity: from_domain succeeds and to_domain of the document equals the
original reminder in every field. -/
theorem reminder_mongo_roundtrip (o : ObjectId) (r : Reminder)
    (hlen : o.bytes.length = 12) (hb : ∀ b ∈ o.bytes, b < 256)
    (hid : r.id = o.toHexString) :
    ∃ m : ReminderMongo, ReminderMongo.from_domain r = some m ∧
      ReminderMongo.to_domain m = r := by
  rw [ReminderMongo.from_domain, hid, with_string_toHexString o hlen hb]
  refine ⟨_, rfl, ?_⟩
  cases r with
  | mk id remind_at event_id account_id priority =>
    simp only [ReminderMongo.to_domain]
    simp only at hid
    rw [hid]

/-- Witness for C10 at a concrete input: the all-zero 12-byte ObjectId and a
reminder carrying its hex string as id round-trip to the same reminder. -/
theorem reminder_mongo_roundtrip_witness :
    ∃ m : ReminderMongo,
      ReminderMongo.from_domain
        ⟨ObjectId.toHexString ⟨List.replicate 12 0⟩, 5, "e", "a", 1⟩ = some m ∧
      ReminderMongo.to_domain m =
        ⟨ObjectId.toHexString ⟨List.replicate 12 0⟩, 5, "e", "a", 1⟩ :=
  reminder_mongo_roundtrip ⟨List.replicate 12 0⟩ _ (by decide) (by decide) rfl

end ReminderRepo

/-! ## GetServiceBookingSlotsUseCase
(src/server/src/service/usecases/get_service_bookingslots.rs)
The usecase's control flow — interval check, query validation, service
lookup, per-user free-busy gathering, slot generation — is translated from
the source.  The helpers it calls from the booking_slots module
(validate_slots_interval, validate_bookingslots_query,
get_service_bookingslots) and the free-busy usecase are not part of the
sources: validate_slots_interval and the slot generator are modelled from
the spec, and query validation plus free-busy lookup are abstract
parameters of the context. -/

namespace BookingSlots

structure Interval where
  start_ts : Int
  end_ts : Int
deriving DecidableEq, Repr

structure ServiceUser where
  user_id : String
  calendar_ids : List String
deriving DecidableEq, Repr

structure Service where
  users : List ServiceUser
deriving DecidableEq, Repr

structure UserFreeEvents where
  user_id : String
  free_events : List Interval
deriving DecidableEq, Repr

structure BookingSlotsQuery where
  date : String
  iana_tz : Option String
  interval : Int
  duration : Int
deriving DecidableEq, Repr

structure BookingTimespan where
  start_ts : Int
  end_ts : Int
deriving DecidableEq, Repr

structure BookingSlotsOptions where
  interval : Int
  duration : Int
  start_ts : Int
  end_ts : Int
deriving DecidableEq, Repr

structure ServiceBookingSlot where
  start_ts : Int
  user_ids : List String
deriving DecidableEq, Repr

inductive BookingQueryError where
  | InvalidIntervalError
  | InvalidDateError (d : String)
  | InvalidTimezoneError (d : String)
deriving DecidableEq, Repr

inductive UseCaseErrors where
  | ServiceNotFoundError
  | InvalidIntervalError
  | InvalidDateError (d : String)
  | InvalidTimezoneError (d : String)
deriving DecidableEq, Repr

/-- Modelled from the spec: validate_slots_interval is called by the
usecase but not contained in the sources; the interval must lie in
[10 minutes, 60 minutes] inclusive, expressed in milliseconds. -/
def validate_slots_interval (interval : Int) : Bool :=
  decide (10 * 60 * 1000 ≤ interval ∧ interval ≤ 60 * 60 * 1000)

/-- Modelled from the spec: get_service_bookingslots is called by the
usecase but not contained in the sources.  The generator steps through the
window at the fixed interval; a participant is eligible at t iff some free
interval fully contains [t, t + duration); a slot is emitted only when its
eligible set is non-empty. -/
def get_service_bookingslots (users_freebusy : List UserFreeEvents)
    (opts : BookingSlotsOptions) : List ServiceBookingSlot :=
  let steps := ((opts.end_ts - opts.start_ts) / opts.interval).toNat
  (List.range steps).filterMap (fun k =>
    let t := opts.start_ts + opts.interval * k
    let eligible := (users_freebusy.filter (fun uf =>
      uf.free_events.any (fun iv =>
        decide (iv.start_ts ≤ t ∧ t + opts.duration ≤ iv.end_ts)))).map
      (fun uf => uf.user_id)
    if eligible.isEmpty then none else some ⟨t, eligible⟩)

/-- External collaborators of the usecase: the service repository, the
per-user free-busy usecase (which may fail), and the date/timezone query
validation. -/
structure Context where
  service_repo_find : String → Option Service
  user_freebusy : ServiceUser → Except String (List Interval)
  validate_bookingslots_query : BookingSlotsQuery → Except BookingQueryError BookingTimespan

structure GetServiceBookingSlotsUseCase where
  service_id : String
  date : String
  iana_tz : Option String
  duration : Int
  interval : Int

/-- The usecase body, translated from the source.  The second component of
the result records whether the service repository was consulted. -/
def GetServiceBookingSlotsUseCase.execute (uc : GetServiceBookingSlotsUseCase)
    (ctx : Context) : Except UseCaseErrors (List ServiceBookingSlot) × Bool :=
  if ¬ validate_slots_interval uc.interval then
    (Except.error UseCaseErrors.InvalidIntervalError, false)
  else
    match ctx.validate_bookingslots_query
      { date := uc.date, iana_tz := uc.iana_tz
        interval := uc.interval, duration := uc.duration } with
    | Except.error BookingQueryError.InvalidIntervalError =>
      (Except.error UseCaseErrors.InvalidIntervalError, false)
    | Except.error (BookingQueryError.InvalidDateError d) =>
      (Except.error (UseCaseErrors.InvalidDateError d), false)
    | Except.error (BookingQueryError.InvalidTimezoneError d) =>
      (Except.error (UseCaseErrors.InvalidTimezoneError d), false)
    | Except.ok booking_timespan =>
      match ctx.service_repo_find uc.service_id with
      | none => (Except.error UseCaseErrors.ServiceNotFoundError, true)
      | some service =>
        let users_freebusy := service.users.filterMap (fun user =>
          match ctx.user_freebusy user with
          | Except.ok free => some { user_id := user.user_id, free_events := free }
          | Except.error _ => none)
        (Except.ok (get_service_bookingslots users_freebusy
          { interval := uc.interval, duration := uc.duration
            start_ts := booking_timespan.start_ts
            end_ts := booking_timespan.end_ts }), true)

theorem bookingslot_user_ids_from_input (users_freebusy : List UserFreeEvents)
    (opts : BookingSlotsOptions) (s : ServiceBookingSlot)
    (hs : s ∈ get_service_bookingslots users_freebusy opts)
    (uid : String) (huid : uid ∈ s.user_ids) :
    ∃ uf ∈ users_freebusy, uf.user_id = uid := by
  unfold get_service_bookingslots at hs
  rw [List.mem_filterMap] at hs
  obtain ⟨k, _, hk⟩ := hs
  by_cases hempty :
      ((users_freebusy.filter (fun uf =>
        uf.free_events.any (fun iv =>
          decide (iv.start_ts ≤ opts.start_ts + opts.interval * k ∧
            opts.start_ts + opts.interval * k + opts.duration ≤ iv.end_ts)))).map
        (fun uf => uf.user_id)).isEmpty
  · simp only [hempty, if_true] at hk
    exact Option.noConfusion hk
  · simp only [hempty, if_false] at hk
    have huid2 := huid
    rw [← Option.some_inj.mp hk] at huid2
    simp only at huid2
    rw [List.mem_map] at huid2
    obtain ⟨uf, hufmem, hufid⟩ := huid2
    exact ⟨uf, (List.mem_filter.mp hufmem).1, hufid⟩

/-- C6: a query whose interval lies outside [10 minutes, 60 minutes] in
milliseconds, or whose date or timezone is invalid, makes the usecase
return the corresponding validation error without ever consulting the
service repository (the consulted flag of the embedding stays false). -/
theorem booking_slots_validation_short_circuits
    (uc : GetServiceBookingSlotsUseCase) (ctx : Context) :
    (¬ (10 * 60 * 1000 ≤ uc.interval ∧ uc.interval ≤ 60 * 60 * 1000) →
      uc.execute ctx = (Except.error UseCaseErrors.InvalidIntervalError, false)) ∧
    (∀ d : String, validate_slots_interval uc.interval = true →
      ctx.validate_bookingslots_query
        { date := uc.date, iana_tz := uc.iana_tz
          interval := uc.interval, duration := uc.duration } =
        Except.error (BookingQueryError.InvalidDateError d) →
      uc.execute ctx = (Except.error (UseCaseErrors.InvalidDateError d), false)) ∧
    (∀ d : String, validate_slots_interval uc.interval = true →
      ctx.validate_bookingslots_query
        { date := uc.date, iana_tz := uc.iana_tz
          interval := uc.interval, duration := uc.duration } =
        Except.error (BookingQueryError.InvalidTimezoneError d) →
      uc.execute ctx = (Except.error (UseCaseErrors.InvalidTimezoneError d), false)) := by
  refine ⟨?_, ?_, ?_⟩
  · intro hrange
    have hv : ¬ (validate_slots_interval uc.interval = true) := by
      simp only [validate_slots_interval, decide_eq_true_eq]
      exact hrange
    unfold GetServiceBookingSlotsUseCase.execute
    rw [if_pos hv]
  · intro d hv hq
    unfold GetServiceBookingSlotsUseCase.execute
    rw [if_neg (not_not_intro hv), hq]
  · intro d hv hq
    unfold GetServiceBookingSlotsUseCase.execute
    rw [if_neg (not_not_intro hv), hq]

/-- Witness for C6 at concrete inputs: an interval of 0 returns
InvalidIntervalError without consulting the repository, and an invalid
date (with a valid interval) returns InvalidDateError without consulting
the repository. -/
theorem booking_slots_validation_short_circuits_witness :
    GetServiceBookingSlotsUseCase.execute ⟨"s1", "baddate", none, 1800000, 0⟩
      ⟨fun _ => none, fun _ => Except.error "down",
        fun _ => Except.error (BookingQueryError.InvalidDateError "baddate")⟩ =
      (Except.error UseCaseErrors.InvalidIntervalError, false) ∧
    GetServiceBookingSlotsUseCase.execute ⟨"s1", "baddate", none, 1800000, 1800000⟩
      ⟨fun _ => none, fun _ => Except.error "down",
        fun _ => Except.error (BookingQueryError.InvalidDateError "baddate")⟩ =
      (Except.error (UseCaseErrors.InvalidDateError "baddate"), false) :=
  ⟨(booking_slots_validation_short_circuits ⟨"s1", "baddate", none, 1800000, 0⟩
      ⟨fun _ => none, fun _ => Except.error "down",
        fun _ => Except.error (BookingQueryError.InvalidDateError "baddate")⟩).1
      (by decide),
   (booking_slots_validation_short_circuits ⟨"s1", "baddate", none, 1800000, 1800000⟩
      ⟨fun _ => none, fun _ => Except.error "down",
        fun _ => Except.error (BookingQueryError.InvalidDateError "baddate")⟩).2.1
      "baddate" (by decide) rfl⟩

/-- C5: when the free-busy lookup fails for a participant, the query still
returns a successful result and that participant is absent from every
slot's eligible-host set. -/
theorem freebusy_failure_excludes_participant
    (uc : GetServiceBookingSlotsUseCase) (ctx : Context)
    (service : Service) (ts : BookingTimespan) (u : ServiceUser)
    (hi : validate_slots_interval uc.interval = true)
    (hq : ctx.validate_bookingslots_query
      { date := uc.date, iana_tz := uc.iana_tz
        interval := uc.interval, duration := uc.duration } = Except.ok ts)
    (hs : ctx.service_repo_find uc.service_id = some service)
    (hu : u ∈ service.users)
    (hfail : ∀ u2 ∈ service.users, u2.user_id = u.user_id →
      ∃ e, ctx.user_freebusy u2 = Except.error e) :
    ∃ slots, uc.execute ctx = (Except.ok slots, true) ∧
      ∀ s ∈ slots, u.user_id ∉ s.user_ids := by
  unfold GetServiceBookingSlotsUseCase.execute
  rw [if_neg (not_not_intro hi), hq, hs]
  refine ⟨_, rfl, ?_⟩
  intro s hsmem hmem
  obtain ⟨uf, hufmem, hufid⟩ :=
    bookingslot_user_ids_from_input _ _ s hsmem u.user_id hmem
  rw [List.mem_filterMap] at hufmem
  obtain ⟨u2, hu2mem, hu2eq⟩ := hufmem
  cases hfb : ctx.user_freebusy u2 with
  | error e =>
    rw [hfb] at hu2eq
    exact Option.noConfusion hu2eq
  | ok free =>
    rw [hfb] at hu2eq
    have hid2 : u2.user_id = u.user_id := by
      have := Option.some_inj.mp hu2eq
      rw [← this] at hufid
      exact hufid
    obtain ⟨e, he⟩ := hfail u2 hu2mem hid2
    rw [he] at hfb
    exact Except.noConfusion hfb

/-- Witness for C5 at concrete inputs: one participant whose free-busy
lookup fails; the query succeeds and the participant appears in no slot. -/
theorem freebusy_failure_excludes_participant_witness :
    ∃ slots, GetServiceBookingSlotsUseCase.execute
      ⟨"s1", "2020-1-1", none, 1800000, 1800000⟩
      ⟨fun _ => some ⟨[⟨"u1", ["c1"]⟩]⟩, fun _ => Except.error "down",
        fun _ => Except.ok ⟨0, 3600000⟩⟩ = (Except.ok slots, true) ∧
      ∀ s ∈ slots, "u1" ∉ s.user_ids :=
  freebusy_failure_excludes_participant
    ⟨"s1", "2020-1-1", none, 1800000, 1800000⟩
    ⟨fun _ => some ⟨[⟨"u1", ["c1"]⟩]⟩, fun _ => Except.error "down",
      fun _ => Except.ok ⟨0, 3600000⟩⟩
    ⟨[⟨"u1", ["c1"]⟩]⟩ ⟨0, 3600000⟩ ⟨"u1", ["c1"]⟩
    (by decide) rfl rfl (by decide)
    (fun u2 _ _ => ⟨"down", rfl⟩)

end BookingSlots

/-! ## Round-robin selection
The round-robin selector itself is not contained in the sources (only its
integration test, src/scheduler/tests/round_robin_scheduling.rs, is);
both policies below are modelled from the spec. -/

namespace RoundRobin

structure ServiceEvent (α : Type) where
  host_user_id : α
  start_ts : Int
deriving DecidableEq, Repr

/-- Modelled from the spec: a host's number of upcoming service bookings,
events with start time at or after now. -/
def upcoming_count {α : Type} [DecidableEq α] (events : List (ServiceEvent α))
    (now : Int) (h : α) : Nat :=
  (events.filter (fun e =>
    decide (e.host_user_id = h) && decide (now ≤ e.start_ts))).length

/-- Modelled from the spec: the EqualDistribution policy selects a host of
minimum upcoming-booking count among the eligible hosts; remaining ties are
broken deterministically by the order of the eligible set. -/
def select_equal_distribution {α : Type} [DecidableEq α] (eligible : List α)
    (events : List (ServiceEvent α)) (now : Int) : Option α :=
  match eligible with
  | [] => none
  | h :: rest => some (rest.foldl (fun best h2 =>
      if upcoming_count events now h2 < upcoming_count events now best then h2
      else best) h)

theorem foldl_argmin_spec {α : Type} (f : α → Nat) (h : α) (rest : List α) :
    (rest.foldl (fun best h2 => if f h2 < f best then h2 else best) h) ∈ h :: rest ∧
    ∀ x ∈ h :: rest,
      f (rest.foldl (fun best h2 => if f h2 < f best then h2 else best) h) ≤ f x := by
  induction rest generalizing h with
  | nil =>
    refine ⟨List.mem_cons_self h [], ?_⟩
    intro x hx
    rw [List.mem_singleton] at hx
    rw [hx]
    exact le_refl _
  | cons h2 rest2 ih =>
    rw [List.foldl_cons]
    by_cases hlt : f h2 < f h
    · rw [if_pos hlt]
      obtain ⟨ihmem, ihmin⟩ := ih h2
      refine ⟨?_, ?_⟩
      · cases List.mem_cons.mp ihmem with
        | inl he => rw [he]; exact List.mem_cons_of_mem _ (List.mem_cons_self _ _)
        | inr he => exact List.mem_cons_of_mem _ (List.mem_cons_of_mem _ he)
      · intro x hx
        cases List.mem_cons.mp hx with
        | inl hxe =>
          rw [hxe]
          exact le_trans (ihmin h2 (List.mem_cons_self _ _)) (le_of_lt hlt)
        | inr hx2 => exact ihmin x hx2
    · rw [if_neg hlt]
      obtain ⟨ihmem, ihmin⟩ := ih h
      refine ⟨?_, ?_⟩
      · cases List.mem_cons.mp ihmem with
        | inl he => rw [he]; exact List.mem_cons_self _ _
        | inr he => exact List.mem_cons_of_mem _ (List.mem_cons_of_mem _ he)
      · intro x hx
        cases List.mem_cons.mp hx with
        | inl hxe => rw [hxe]; exact ihmin h (List.mem_cons_self _ _)
        | inr hx2 =>
          cases List.mem_cons.mp hx2 with
          | inl hxe2 =>
            rw [hxe2]
            exact le_trans (ihmin h (List.mem_cons_self _ _))
              (Nat.le_of_not_lt hlt)
          | inr hx3 => exact ihmin x (List.mem_cons_of_mem _ hx3)

/-- C2: under EqualDistribution, for every non-empty eligible set the
selected host has minimal upcoming-booking count among the eligible hosts;
and for hosts with upcoming counts [3,0,1,5] the host with count 0 is
selected first, and after booking it the next selection is again a host of
the (new) minimum count. -/
theorem select_equal_distribution_spec {α : Type} [DecidableEq α]
    (eligible : List α) (events : List (ServiceEvent α)) (now : Int)
    (hne : eligible ≠ []) :
    (∃ h, select_equal_distribution eligible events now = some h ∧ h ∈ eligible ∧
      ∀ h2 ∈ eligible,
        upcoming_count events now h ≤ upcoming_count events now h2) ∧
    (select_equal_distribution [0, 1, 2, 3]
        [⟨0, 10⟩, ⟨0, 10⟩, ⟨0, 10⟩, ⟨2, 10⟩, ⟨3, 10⟩, ⟨3, 10⟩, ⟨3, 10⟩, ⟨3, 10⟩,
          ⟨3, 10⟩] 0 = some 1 ∧
      upcoming_count (α := Nat)
        [⟨0, 10⟩, ⟨0, 10⟩, ⟨0, 10⟩, ⟨2, 10⟩, ⟨3, 10⟩, ⟨3, 10⟩, ⟨3, 10⟩, ⟨3, 10⟩,
          ⟨3, 10⟩] 0 1 = 0) ∧
    (∀ h, select_equal_distribution [0, 1, 2, 3]
        [⟨1, 10⟩, ⟨0, 10⟩, ⟨0, 10⟩, ⟨0, 10⟩, ⟨2, 10⟩, ⟨3, 10⟩, ⟨3, 10⟩, ⟨3, 10⟩,
          ⟨3, 10⟩, ⟨3, 10⟩] 0 = some h →
      ∀ h2 ∈ [0, 1, 2, 3],
        upcoming_count (α := Nat)
          [⟨1, 10⟩, ⟨0, 10⟩, ⟨0, 10⟩, ⟨0, 10⟩, ⟨2, 10⟩, ⟨3, 10⟩, ⟨3, 10⟩,
            ⟨3, 10⟩, ⟨3, 10⟩, ⟨3, 10⟩] 0 h ≤
        upcoming_count
          [⟨1, 10⟩, ⟨0, 10⟩, ⟨0, 10⟩, ⟨0, 10⟩, ⟨2, 10⟩, ⟨3, 10⟩, ⟨3, 10⟩,
            ⟨3, 10⟩, ⟨3, 10⟩, ⟨3, 10⟩] 0 h2) := by
  refine ⟨?_, by decide, by decide⟩
  cases eligible with
  | nil => exact absurd rfl hne
  | cons h rest =>
    obtain ⟨hmem, hmin⟩ :=
      foldl_argmin_spec (upcoming_count events now) h rest
    exact ⟨_, rfl, hmem, hmin⟩

/-- Witness for C2 at a concrete input: two hosts with no events; the
selection returns a host of minimal (zero) count. -/
theorem select_equal_distribution_spec_witness :
    ∃ h, select_equal_distribution [0, 1] ([] : List (ServiceEvent Nat)) 0 =
        some h ∧ h ∈ [0, 1] ∧
      ∀ h2 ∈ [0, 1], upcoming_count ([] : List (ServiceEvent Nat)) 0 h ≤
        upcoming_count ([] : List (ServiceEvent Nat)) 0 h2 :=
  (select_equal_distribution_spec [0, 1] [] 0 (by decide)).1

structure BusyEvent (α : Type) where
  host_user_id : α
  start_ts : Int
deriving DecidableEq, Repr

/-- Modelled from the spec: a host is eligible at t unless it has a busy
event at t. -/
def eligible_hosts {α : Type} [DecidableEq α] (hosts : List α)
    (events : List (BusyEvent α)) (t : Int) : List α :=
  hosts.filter (fun h => ! events.any (fun e =>
    decide (e.host_user_id = h) && decide (e.start_ts = t)))

/-- Modelled from the spec: an Availability-policy booking at t picks one
host from the eligible set (the first, a fixed arbitrary choice) and
immediately creates a busy event at t for the chosen host. -/
def book_once {α : Type} [DecidableEq α] (hosts : List α)
    (events : List (BusyEvent α)) (t : Int) : Option (α × List (BusyEvent α)) :=
  match eligible_hosts hosts events t with
  | [] => none
  | h :: _ => some (h, ⟨h, t⟩ :: events)

/-- n bookings at t in sequence, each feeding its busy event into the next. -/
def book_repeatedly {α : Type} [DecidableEq α] (hosts : List α) (t : Int) :
    Nat → List (BusyEvent α) → List α × List (BusyEvent α)
  | 0, events => ([], events)
  | n + 1, events =>
    match book_once hosts events t with
    | none => ([], events)
    | some (h, events2) =>
      let r := book_repeatedly hosts t n events2
      (h :: r.1, r.2)

theorem eligible_hosts_cons_busy {α : Type} [DecidableEq α] (hosts : List α)
    (events : List (BusyEvent α)) (t : Int) (h : α) :
    eligible_hosts hosts (⟨h, t⟩ :: events) t =
      (eligible_hosts hosts events t).filter (fun x => ! decide (x = h)) := by
  unfold eligible_hosts
  rw [List.filter_filter]
  congr 1
  funext x
  by_cases hxh : x = h
  · subst hxh
    simp
  · simp [hxh, Ne.symm hxh]

theorem book_repeatedly_exhausts {α : Type} [DecidableEq α] (hosts : List α)
    (t : Int) (l : List α) :
    ∀ events : List (BusyEvent α),
      eligible_hosts hosts events t = l → l.Nodup →
      ∃ evf, book_repeatedly hosts t l.length events = (l, evf) ∧
        eligible_hosts hosts evf t = [] := by
  induction l with
  | nil =>
    intro events he _
    exact ⟨events, rfl, he⟩
  | cons h rest ih =>
    intro events he hnd
    have hnotmem := (List.nodup_cons.mp hnd).1
    have hnd2 := (List.nodup_cons.mp hnd).2
    have hb : book_once hosts events t = some (h, ⟨h, t⟩ :: events) := by
      unfold book_once
      rw [he]
    have he2 : eligible_hosts hosts (⟨h, t⟩ :: events) t = rest := by
      rw [eligible_hosts_cons_busy, he, List.filter_cons]
      simp only [decide_True, Bool.not_true, Bool.false_eq_true, if_false]
      apply List.filter_eq_self.mpr
      intro x hx
      rw [Bool.not_eq_true', decide_eq_false_iff_not]
      exact fun hxe => hnotmem (hxe ▸ hx)
    obtain ⟨evf, hrun, hfin⟩ := ih (⟨h, t⟩ :: events) he2 hnd2
    refine ⟨evf, ?_, hfin⟩
    show book_repeatedly hosts t (rest.length + 1) events = (h :: rest, evf)
    unfold book_repeatedly
    rw [hb]
    show (h :: (book_repeatedly hosts t rest.length (⟨h, t⟩ :: events)).1,
      (book_repeatedly hosts t rest.length (⟨h, t⟩ :: events)).2) = (h :: rest, evf)
    rw [hrun]

/-- C3: under the Availability policy, starting from hosts that are all
eligible at t, booking t repeatedly (each booking creating a busy event at
t for the selected host) books every initially-eligible host exactly once
(the sequence of selected hosts is exactly the duplicate-free host list),
and after the N-th iteration no host is eligible at t and a further booking
returns no host. -/
theorem availability_policy_exhaustive {α : Type} [DecidableEq α]
    (hosts : List α) (events : List (BusyEvent α)) (t : Int)
    (hnd : hosts.Nodup) (hfree : ∀ e ∈ events, e.start_ts ≠ t) :
    ∃ evf, book_repeatedly hosts t hosts.length events = (hosts, evf) ∧
      eligible_hosts hosts evf t = [] ∧ book_once hosts evf t = none := by
  have he : eligible_hosts hosts events t = hosts := by
    apply List.filter_eq_self.mpr
    intro h hh
    rw [Bool.not_eq_true', List.any_eq_false]
    intro e hemem
    simp only [Bool.and_eq_true, decide_eq_true_eq, not_and]
    intro _
    exact hfree e hemem
  obtain ⟨evf, hrun, hfin⟩ := book_repeatedly_exhausts hosts t hosts events he hnd
  refine ⟨evf, hrun, hfin, ?_⟩
  unfold book_once
  rw [hfin]

/-- Witness for C3 at a concrete input: two distinct hosts, no prior busy
events; two bookings visit both hosts and the slot is then unavailable. -/
theorem availability_policy_exhaustive_witness :
    ∃ evf, book_repeatedly [0, 1] 0 ([0, 1] : List Nat).length [] = ([0, 1], evf) ∧
      eligible_hosts [0, 1] evf 0 = [] ∧ book_once [0, 1] evf 0 = none :=
  availability_policy_exhaustive [0, 1] [] 0 (by decide)
    (fun e he => absurd he (List.not_mem_nil e))

end RoundRobin

/-! ## Reservation claiming
The reservation manager (create_intent and the atomic insert-if-absent
storage primitive) is not contained in the sources; it is modelled from
the spec.  Concurrency reduces to an arbitrary interleaving of the atomic
operations, and with N identical calls every interleaving is the same
N-step sequence. -/

namespace Reservations

inductive ReservationState where
  | Pending
  | Confirmed
  | Released
  | Expired
deriving DecidableEq, Repr

structure ReservationTuple where
  service_id : String
  timestamp : Int
  host_user_id : String
deriving DecidableEq, Repr

structure Reservation where
  tuple : ReservationTuple
  state : ReservationState
deriving DecidableEq, Repr

inductive CreateIntentError where
  | SlotAlreadyReservedError
deriving DecidableEq, Repr

/-- A stored reservation blocks a new intent for tp iff it is for the same
tuple and is Pending or Confirmed. -/
def blocksIntent (tp : ReservationTuple) (r : Reservation) : Bool :=
  decide (r.tuple = tp) &&
    (decide (r.state = ReservationState.Pending) ||
     decide (r.state = ReservationState.Confirmed))

/-- Modelled from the spec: create_intent atomically inserts a Pending
reservation and fails with SlotAlreadyReservedError if a Pending or
Confirmed reservation already exists for the exact tuple. -/
def create_intent (tp : ReservationTuple) (store : List Reservation) :
    Except CreateIntentError Unit × List Reservation :=
  if store.any (blocksIntent tp) then
    (Except.error CreateIntentError.SlotAlreadyReservedError, store)
  else
    (Except.ok (), ⟨tp, ReservationState.Pending⟩ :: store)

/-- n create_intent calls for the same tuple, in sequence; the result is
(number of successes, number of failures, final store). -/
def run_create_intents (tp : ReservationTuple) :
    Nat → List Reservation → Nat × Nat × List Reservation
  | 0, store => (0, 0, store)
  | n + 1, store =>
    let c := create_intent tp store
    let rest := run_create_intents tp n c.2
    match c.1 with
    | Except.ok _ => (rest.1 + 1, rest.2.1, rest.2.2)
    | Except.error _ => (rest.1, rest.2.1 + 1, rest.2.2)

def active_count (tp : ReservationTuple) (store : List Reservation) : Nat :=
  (store.filter (blocksIntent tp)).length

theorem create_intent_succeeds (tp : ReservationTuple) (store : List Reservation)
    (h0 : active_count tp store = 0) :
    create_intent tp store = (Except.ok (), ⟨tp, ReservationState.Pending⟩ :: store) := by
  unfold create_intent
  rw [if_neg]
  intro hany
  rw [List.any_eq_true] at hany
  obtain ⟨r, hr, hpr⟩ := hany
  unfold active_count at h0
  rw [List.length_eq_zero, List.filter_eq_nil_iff] at h0
  exact h0 r hr hpr

theorem create_intent_fails (tp : ReservationTuple) (store : List Reservation)
    (h1 : 0 < active_count tp store) :
    create_intent tp store =
      (Except.error CreateIntentError.SlotAlreadyReservedError, store) := by
  unfold create_intent
  rw [if_pos]
  unfold active_count at h1
  rw [List.length_pos] at h1
  obtain ⟨r, hr⟩ := List.exists_mem_of_ne_nil _ h1
  rw [List.any_eq_true]
  exact ⟨r, (List.mem_filter.mp hr).1, (List.mem_filter.mp hr).2⟩

theorem active_count_after_insert (tp : ReservationTuple) (store : List Reservation) :
    active_count tp (⟨tp, ReservationState.Pending⟩ :: store) =
      active_count tp store + 1 := by
  unfold active_count
  rw [List.filter_cons]
  have hblk : blocksIntent tp ⟨tp, ReservationState.Pending⟩ = true := by
    simp [blocksIntent]
  rw [if_pos hblk, List.length_cons]

theorem run_create_intents_all_fail (tp : ReservationTuple) (n : Nat)
    (store : List Reservation) (h1 : 0 < active_count tp store) :
    run_create_intents tp n store = (0, n, store) := by
  induction n with
  | zero => rfl
  | succ m ih =>
    unfold run_create_intents
    rw [create_intent_fails tp store h1]
    show ((run_create_intents tp m store).1,
      (run_create_intents tp m store).2.1 + 1,
      (run_create_intents tp m store).2.2) = (0, m + 1, store)
    rw [ih]

/-- C4: for every n >= 1 create_intent calls with the identical tuple
against a store with no Pending or Confirmed reservation for that tuple,
exactly one call succeeds (creating a Pending reservation) and the other
n - 1 fail with SlotAlreadyReservedError; afterwards exactly one
Pending-or-Confirmed reservation exists for the tuple, and a single
create_intent step never raises the per-tuple active count above one. -/
theorem create_intent_mutual_exclusion (tp : ReservationTuple)
    (store : List Reservation) (n : Nat)
    (h0 : active_count tp store = 0) (hn : 1 ≤ n) :
    ((run_create_intents tp n store).1 = 1 ∧
     (run_create_intents tp n store).2.1 = n - 1 ∧
     active_count tp (run_create_intents tp n store).2.2 = 1) ∧
    (∀ st : List Reservation, active_count tp st ≤ 1 →
      active_count tp (create_intent tp st).2 ≤ 1) := by
  refine ⟨?_, ?_⟩
  · cases n with
    | zero => omega
    | succ m =>
      have hc := create_intent_succeeds tp store h0
      have hact : active_count tp (⟨tp, ReservationState.Pending⟩ :: store) = 1 := by
        rw [active_count_after_insert, h0]
      have hrest := run_create_intents_all_fail tp m
        (⟨tp, ReservationState.Pending⟩ :: store) (by omega)
      have hrun : run_create_intents tp (m + 1) store =
          (1, m, ⟨tp, ReservationState.Pending⟩ :: store) := by
        unfold run_create_intents
        rw [hc]
        show ((run_create_intents tp m (⟨tp, ReservationState.Pending⟩ :: store)).1 + 1,
          (run_create_intents tp m (⟨tp, ReservationState.Pending⟩ :: store)).2.1,
          (run_create_intents tp m (⟨tp, ReservationState.Pending⟩ :: store)).2.2) =
          (1, m, ⟨tp, ReservationState.Pending⟩ :: store)
        rw [hrest]
      rw [hrun]
      refine ⟨rfl, ?_, hact⟩
      show m = m + 1 - 1
      omega
  · intro st hle
    by_cases hz : active_count tp st = 0
    · rw [create_intent_succeeds tp st hz]
      show active_count tp (⟨tp, ReservationState.Pending⟩ :: st) ≤ 1
      rw [active_count_after_insert, hz]
    · rw [create_intent_fails tp st (Nat.pos_of_ne_zero hz)]
      exact hle

/-- Witness for C4 at a concrete input: three identical calls against an
empty store give one success, two failures, and one active reservation. -/
theorem create_intent_mutual_exclusion_witness :
    (run_create_intents ⟨"s1", 0, "h1"⟩ 3 []).1 = 1 ∧
    (run_create_intents ⟨"s1", 0, "h1"⟩ 3 []).2.1 = 3 - 1 ∧
    active_count ⟨"s1", 0, "h1"⟩ (run_create_intents ⟨"s1", 0, "h1"⟩ 3 []).2.2 = 1 :=
  (create_intent_mutual_exclusion ⟨"s1", 0, "h1"⟩ [] 3 (by decide) (by decide)).1

end Reservations

/-! ## RemoveServiceEventIntendUseCase
(src/scheduler/crates/api/src/service/remove_service_event_intend.rs)
The usecase body is translated from the source; the reservation
repository's remove_one is modelled from the spec. -/

namespace RemoveIntend

structure Account where
  id : String
deriving DecidableEq, Repr

structure Service where
  id : String
  account_id : String
deriving DecidableEq, Repr

structure ServiceReservation where
  service_id : String
  timestamp : Int
  host_user_id : String
deriving DecidableEq, Repr

inductive UseCaseErrors where
  | ServiceNotFound
  | StorageError
deriving DecidableEq, Repr

structure Ctx where
  services : List Service
  reservations : List ServiceReservation
deriving DecidableEq, Repr

def find_service (ctx : Ctx) (service_id : String) : Option Service :=
  ctx.services.find? (fun s => decide (s.id = service_id))

/-- Modelled from the spec: reservations.remove_one deletes the stored
reservation for (service_id, timestamp); the repository implementation is
not in the sources. -/
def remove_one (service_id : String) (timestamp : Int)
    (rs : List ServiceReservation) : List ServiceReservation :=
  rs.eraseP (fun r =>
    decide (r.service_id = service_id) && decide (r.timestamp = timestamp))

/-- RemoveServiceEventIntendUseCase::execute, translated from the source:
look up the service, require it to belong to the caller's account, then
remove the reservation. -/
def execute (account : Account) (service_id : String) (timestamp : Int)
    (ctx : Ctx) : Except UseCaseErrors Unit × Ctx :=
  match find_service ctx service_id with
  | some s =>
    if s.account_id = account.id then
      (Except.ok (), { services := ctx.services
                       reservations := remove_one service_id timestamp ctx.reservations })
    else
      (Except.error UseCaseErrors.ServiceNotFound, ctx)
  | none => (Except.error UseCaseErrors.ServiceNotFound, ctx)

theorem countP_eraseP_of_exists (p : ServiceReservation → Bool)
    (l : List ServiceReservation) (hex : ∃ r ∈ l, p r = true) :
    (l.eraseP p).countP p = l.countP p - 1 := by
  induction l with
  | nil =>
    obtain ⟨r, hr, _⟩ := hex
    exact absurd hr (List.not_mem_nil r)
  | cons a l ih =>
    by_cases hpa : p a = true
    · rw [List.eraseP_cons_of_pos hpa, List.countP_cons_of_pos _ _ hpa]
      omega
    · rw [List.eraseP_cons_of_neg hpa, List.countP_cons_of_neg _ _ hpa,
        List.countP_cons_of_neg _ _ hpa]
      apply ih
      obtain ⟨r, hr, hpr⟩ := hex
      cases List.mem_cons.mp hr with
      | inl he =>
        rw [he] at hpr
        exact absurd hpr hpa
      | inr hl => exact ⟨r, hl, hpr⟩

theorem execute_found_eq (account : Account) (service_id : String)
    (timestamp : Int) (ctx : Ctx) (s : Service)
    (hfs : find_service ctx service_id = some s)
    (hacc : s.account_id = account.id) :
    execute account service_id timestamp ctx =
      (Except.ok (), { services := ctx.services
                       reservations := remove_one service_id timestamp ctx.reservations }) := by
  unfold execute
  rw [hfs]
  simp [hacc]

theorem execute_notfound_eq (account : Account) (service_id : String)
    (timestamp : Int) (ctx : Ctx)
    (hne : ∀ s : Service, find_service ctx service_id = some s →
      s.account_id ≠ account.id) :
    execute account service_id timestamp ctx =
      (Except.error UseCaseErrors.ServiceNotFound, ctx) := by
  unfold execute
  cases hfs : find_service ctx service_id with
  | none => rfl
  | some s => simp [hne s hfs]

/-- C8: when no service with the given id exists, or the found service
belongs to a different account, the operation fails with ServiceNotFound
and the whole state is unchanged; when the service exists and belongs to
the caller, it reports success, leaves the services unchanged, and removes
the reservation for (service_id, timestamp): the reservation list loses
exactly one matching entry when one is present (and stays a sublist of the
original). -/
theorem remove_service_event_intend_spec (account : Account)
    (service_id : String) (timestamp : Int) (ctx : Ctx) :
    ((∀ s : Service, find_service ctx service_id = some s →
        s.account_id ≠ account.id) →
      execute account service_id timestamp ctx =
        (Except.error UseCaseErrors.ServiceNotFound, ctx)) ∧
    (∀ s : Service, find_service ctx service_id = some s →
      s.account_id = account.id →
      (execute account service_id timestamp ctx).1 = Except.ok () ∧
      (execute account service_id timestamp ctx).2.services = ctx.services ∧
      (execute account service_id timestamp ctx).2.reservations.Sublist
        ctx.reservations ∧
      ((∃ r ∈ ctx.reservations,
          r.service_id = service_id ∧ r.timestamp = timestamp) →
        (execute account service_id timestamp ctx).2.reservations.countP
            (fun r => decide (r.service_id = service_id) &&
              decide (r.timestamp = timestamp)) =
          ctx.reservations.countP
            (fun r => decide (r.service_id = service_id) &&
              decide (r.timestamp = timestamp)) - 1)) := by
  refine ⟨fun hne => execute_notfound_eq account service_id timestamp ctx hne, ?_⟩
  intro s hfs hacc
  rw [execute_found_eq account service_id timestamp ctx s hfs hacc]
  refine ⟨rfl, rfl, List.eraseP_sublist _, ?_⟩
  intro hex
  show (ctx.reservations.eraseP (fun r =>
      decide (r.service_id = service_id) && decide (r.timestamp = timestamp))).countP
      (fun r => decide (r.service_id = service_id) && decide (r.timestamp = timestamp)) =
    ctx.reservations.countP (fun r =>
      decide (r.service_id = service_id) && decide (r.timestamp = timestamp)) - 1
  apply countP_eraseP_of_exists
  obtain ⟨r, hr, h1, h2⟩ := hex
  exact ⟨r, hr, by simp [h1, h2]⟩

/-- Witness for C8 at concrete inputs: with a matching account the call
succeeds; with a different account it fails and leaves the state intact. -/
theorem remove_service_event_intend_spec_witness :
    (execute ⟨"a1"⟩ "s1" 0 ⟨[⟨"s1", "a1"⟩], [⟨"s1", 0, "h1"⟩]⟩).1 = Except.ok () ∧
    execute ⟨"a2"⟩ "s1" 0 ⟨[⟨"s1", "a1"⟩], [⟨"s1", 0, "h1"⟩]⟩ =
      (Except.error UseCaseErrors.ServiceNotFound,
        ⟨[⟨"s1", "a1"⟩], [⟨"s1", 0, "h1"⟩]⟩) :=
  ⟨((remove_service_event_intend_spec ⟨"a1"⟩ "s1" 0
      ⟨[⟨"s1", "a1"⟩], [⟨"s1", 0, "h1"⟩]⟩).2 ⟨"s1", "a1"⟩ rfl rfl).1,
   (remove_service_event_intend_spec ⟨"a2"⟩ "s1" 0
      ⟨[⟨"s1", "a1"⟩], [⟨"s1", 0, "h1"⟩]⟩).1
     (fun s hs => by
       injection hs with h
       rw [← h]
       decide)⟩

end RemoveIntend
